import Mathlib

/-!
A verification development for the linkcheck crawler (linkcheck.py).

The Python source is embedded shallowly:
- Python strings are Lean String values.
- Python sets of URLs are modelled as insertion-ordered lists without
  duplicates; all statements about them are membership based, so the
  modelling order is irrelevant to the set semantics.
- The arbitrary element returned by set.pop on the unchecked set is
  modelled in two ways: a nondeterministic step relation (Links.Step)
  for frontier invariants, and an explicit chooser function for the
  executable engines.
- The network fetch (requests.get / aiohttp) and the HTML anchor
  extraction (lxml, Page.extract_hrefs) are external collaborators; the
  engines are parameterized over a fetch oracle returning status and
  body (or a transport error) and over an href extractor.
- Exceptions that escape the run loop (KeyError from set.pop on an
  empty set, transport errors from requests.get) appear as dedicated
  RunResult constructors, since Python has no handler for them there.
-/

namespace Linkcheck

/-- Test that the second character list starts with the first one. The
core String.startsWith walks byte positions; this structural version is
what the embedding uses so that concrete runs reduce in the kernel. -/
def leadsChars : List Char → List Char → Bool
  | [], _ => true
  | _ :: _, [] => false
  | p :: ps, c :: cs => p == c && leadsChars ps cs

/-- Python str.startswith. -/
def pyStartsWith (s pat : String) : Bool :=
  leadsChars pat.toList s.toList

/-- Python str.endswith. -/
def pyEndsWith (s pat : String) : Bool :=
  leadsChars pat.toList.reverse s.toList.reverse

/-- Python str.lower, on the ASCII range. -/
def pyToLower (s : String) : String :=
  String.mk (s.toList.map Char.toLower)

/-- Python str.find restricted to a single character needle: the index of
the first occurrence, or -1 when the character does not occur. -/
def pyFind (s : String) (c : Char) : Int :=
  match s.toList.findIdx? (fun d => d == c) with
  | some i => (i : Int)
  | none => -1

/-- Python slice s[:n] for a nonnegative n. -/
def pyTake (s : String) (n : Nat) : String :=
  String.mk (s.toList.take n)

/-- Characters allowed in a URL scheme by urllib.parse: ASCII letters,
digits, plus, minus and dot. -/
def isSchemeChar (c : Char) : Bool :=
  c.isAlpha || c.isDigit || c == '+' || c == '-' || c == '.'

/-- Scheme splitting step of urllib.parse.urlsplit: the text before the
first colon is the scheme when the colon index is positive, the first
character is a letter, and every character before the colon is a scheme
character; the scheme is lowercased and the colon consumed. -/
def splitScheme (url : List Char) : List Char × List Char :=
  match url.findIdx? (fun d => d == ':') with
  | some i =>
    if 0 < i && (url.take i).all isSchemeChar &&
        (match url.head? with | some c => c.isAlpha | none => false) then
      ((url.take i).map Char.toLower, url.drop (i + 1))
    else ([], url)
  | none => ([], url)

/-- Netloc component of a URL per urllib.parse.urlsplit: when the
remainder after the scheme starts with two slashes, the netloc is the
text after them up to the next slash, question mark or hash; otherwise
it is empty. -/
def urlNetloc (url : String) : String :=
  let rest := (splitScheme url.toList).2
  if rest.take 2 = ['/', '/'] then
    String.mk ((rest.drop 2).takeWhile (fun c => !(c == '/' || c == '?' || c == '#')))
  else ""

/-- Scheme component of a URL per urllib.parse.urlsplit. -/
def urlScheme (url : String) : String :=
  String.mk (splitScheme url.toList).1

/-- The Domain class: a website domain, holding the default scheme and
the network location parsed from the root URL. -/
structure Domain where
  default_scheme : String
  netloc : String
deriving DecidableEq

/-- Domain.from_url: parse scheme and netloc out of a URL. -/
def Domain.from_url (url : String) : Domain :=
  { default_scheme := urlScheme url, netloc := urlNetloc url }

/-- Domain.url_in_domain: the netloc of the given URL equals the stored
netloc, by exact string comparison. -/
def Domain.url_in_domain (d : Domain) (url : String) : Bool :=
  d.netloc == urlNetloc url

/-- The Links class (the crawl frontier): the set of all discovered
URLs and the subset already checked. Python sets are modelled as
insertion-ordered lists without duplicates. -/
structure Links where
  all : List String
  checked : List String
deriving DecidableEq

/-- Links.__init__: both sets start empty. -/
def Links.init : Links :=
  { all := [], checked := [] }

/-- Links.unchecked: the difference all - checked, derived and never
stored. -/
def Links.unchecked (l : Links) : List String :=
  l.all.filter (fun u => !l.checked.contains u)

/-- Links.add: add an unchecked link (set insertion into all). -/
def Links.add (l : Links) (link : String) : Links :=
  if l.all.contains link then l else { l with all := l.all ++ [link] }

/-- Links.add_many: add each link in turn. -/
def Links.add_many (l : Links) (links : List String) : Links :=
  links.foldl Links.add l

/-- Links.empty: true iff there are no unchecked links left. -/
def Links.empty (l : Links) : Bool :=
  l.unchecked.length == 0

/-- State change of Links.pop when set.pop chooses the unchecked link u:
u is inserted into checked; all is untouched because the pop happens on
the derived difference set. -/
def Links.popWith (l : Links) (u : String) : Links :=
  { l with checked := if l.checked.contains u then l.checked else l.checked ++ [u] }

/-- Links.pop with an explicit chooser standing for the arbitrary choice
of set.pop on the unchecked set; none models the KeyError that set.pop
raises on an empty set. -/
def Links.pop (choose : List String → Option String) (l : Links) : Option (String × Links) :=
  match choose l.unchecked with
  | some u => some (u, l.popWith u)
  | none => none

/-- The Page dataclass: one fetched page. -/
structure Page where
  url : String
  domain : Domain
  status : Int
  text : String
deriving DecidableEq

/-- Page.url_is_valid: the status lies in the 2xx range. -/
def Page.url_is_valid (p : Page) : Bool :=
  200 ≤ p.status && p.status < 300

/-- Page.is_full_url: the text already starts with an http or https
scheme. -/
def Page.is_full_url (url : String) : Bool :=
  pyStartsWith url "http://" || pyStartsWith url "https://"

/-- Helper is_skippable inside Page.normalize_url: mailto links are
skipped, case-insensitively. -/
def is_skippable (url : String) : Bool :=
  pyStartsWith (pyToLower url) "mailto:"

/-- Helper drop_fragment inside Page.normalize_url: truncate at the
first hash, but only when the hash occurs at a position greater than
zero. -/
def drop_fragment (url : String) : String :=
  let pos := pyFind url '#'
  if 0 < pos then pyTake url pos.toNat else url

/-- Page.normalize_url: turn an href into a full URL based on the
current page URL, or return none for hrefs that should be skipped. -/
def Page.normalize_url (p : Page) (href : String) : Option String :=
  if Page.is_full_url href then
    some (drop_fragment href)
  else if pyStartsWith href "/" then
    some (drop_fragment (p.domain.default_scheme ++ "://" ++ p.domain.netloc ++ href))
  else if is_skippable href then
    none
  else if pyStartsWith href "#" then
    none
  else
    let href2 := if !(pyEndsWith p.url "/") then "/" ++ href else href
    some (drop_fragment (p.url ++ href2))

/-- Page.extract_urls: for each href, a full URL is yielded unchanged
when it is in the domain and dropped otherwise; every other href goes
through normalize_url and is yielded unless normalization returns
none. -/
def Page.extract_urls (p : Page) (hrefs : List String) : List String :=
  hrefs.foldr
    (fun href acc =>
      if Page.is_full_url href then
        (if p.domain.url_in_domain href then href :: acc else acc)
      else
        match p.normalize_url href with
        | none => acc
        | some url => url :: acc)
    []

/-- Page.urls: extract hrefs from the body with the external HTML
anchor extractor (lxml, a collaborator parameter here) and pass them
through extract_urls. The source asserts url_is_valid first; the
engines only call this in the valid branch. -/
def Page.urls (p : Page) (extractHrefs : String → List String) : List String :=
  p.extract_urls (extractHrefs p.text)

/-- The check written in the method named _post__init__ of Page: the
domain must contain the page URL. -/
def Page.post_init_check (p : Page) : Bool :=
  p.domain.url_in_domain p.url

/-- The method names defined on the Page class in the source. -/
def Page.methodNames : List String :=
  ["_post__init__", "url_is_valid", "urls", "normalize_url", "extract_urls",
   "is_full_url", "extract_hrefs"]

/-- The constructor generated by the dataclass decorator: it runs the
domain-containment check only when the class defines a method named
exactly __post_init__; none models a failed assert. -/
def Page.construct (url : String) (domain : Domain) (status : Int) (text : String) :
    Option Page :=
  let p : Page := { url := url, domain := domain, status := status, text := text }
  if Page.methodNames.contains "__post_init__" then
    (if p.post_init_check then some p else none)
  else some p

/-- The Report class: the sets of URLs found good and bad. -/
structure Report where
  bad_urls : List String
  good_urls : List String
deriving DecidableEq

/-- Report.__init__: both sets start empty. -/
def Report.init : Report :=
  { bad_urls := [], good_urls := [] }

/-- Report.add_bad: set insertion into bad_urls. -/
def Report.add_bad (r : Report) (url : String) : Report :=
  if r.bad_urls.contains url then r else { r with bad_urls := r.bad_urls ++ [url] }

/-- Report.add_good: set insertion into good_urls. -/
def Report.add_good (r : Report) (url : String) : Report :=
  if r.good_urls.contains url then r else { r with good_urls := r.good_urls ++ [url] }

/-- Lexicographic order on character lists by code point, the order
Python sorted uses for strings. -/
def lexLeChars : List Char → List Char → Bool
  | [], _ => true
  | _ :: _, [] => false
  | a :: as, b :: bs => if a = b then lexLeChars as bs else decide (a < b)

/-- Lexicographic order on strings by code point. -/
def lexLe (a b : String) : Bool :=
  lexLeChars a.toList b.toList

/-- Insertion into a lexicographically sorted list. -/
def insertSorted (x : String) : List String → List String
  | [] => [x]
  | y :: ys => if lexLe x y then x :: y :: ys else y :: insertSorted x ys

/-- Python sorted on a collection of strings. -/
def pySorted (l : List String) : List String :=
  l.foldr insertSorted []

/-- Report._print_quiet: the lines printed in quiet mode, one bad URL
per line in sorted order. -/
def Report.print_quiet (r : Report) : List String :=
  pySorted r.bad_urls

/-- The mutable state shared by both engines: the frontier and the
report. -/
structure EngineState where
  links : Links
  report : Report
deriving DecidableEq

/-- EngineBase.__init__: the frontier is seeded with the root URL and
the report starts empty. -/
def EngineBase.initState (root_url : String) : EngineState :=
  { links := Links.init.add root_url, report := Report.init }

/-- EngineBase.exit_code: zero when no bad URL was recorded, one
otherwise. -/
def EngineBase.exit_code (s : EngineState) : Int :=
  if s.report.bad_urls.length = 0 then 0 else 1

/-- Outcome of driving a run loop: finished normally, ran out of
modelling fuel, or escaped with the exception Python would raise there
(KeyError from set.pop, or a transport error from the fetch). -/
inductive RunResult where
  | finished (s : EngineState)
  | outOfFuel (s : EngineState)
  | popError (s : EngineState)
  | fetchError (s : EngineState) (url : String)
deriving DecidableEq

/-- The engine state carried by a run outcome. -/
def RunResult.state : RunResult → EngineState
  | .finished s => s
  | .outOfFuel s => s
  | .popError s => s
  | .fetchError s _ => s

/-- The loop exit test of both engines, from the line testing
self.limit and count at the bottom of the loop body: Python truthiness
means a limit of zero never triggers it. -/
def limitHit (limit : Option Nat) (count : Nat) : Bool :=
  match limit with
  | none => false
  | some n => !(n == 0) && decide (n ≤ count)

/-- SequentialEngine.run: pop, fetch, classify, expand, repeat. The
chooser stands for the arbitrary choice of set.pop; fetch is the
requests.get collaborator returning status code and body or a
transport error; extractHrefs is the lxml anchor extractor; fuel
bounds the number of modelled iterations. -/
def SequentialEngine.run (choose : List String → Option String)
    (fetch : String → Except Unit (Int × String))
    (extractHrefs : String → List String)
    (domain : Domain) (limit : Option Nat) :
    Nat → Nat → EngineState → RunResult
  | 0, _, s => .outOfFuel s
  | fuel + 1, count, s =>
    if s.links.empty then .finished s
    else
      match Links.pop choose s.links with
      | none => .popError s
      | some (url, links1) =>
        let count1 := count + 1
        match fetch url with
        | .error _ => .fetchError { s with links := links1 } url
        | .ok (status, text) =>
          let page : Page := { url := url, domain := domain, status := status, text := text }
          let s1 : EngineState :=
            if page.url_is_valid then
              { links := links1.add_many (page.urls extractHrefs),
                report := s.report.add_good url }
            else
              { links := links1, report := s.report.add_bad url }
          if limitHit limit count1 then .finished s1
          else SequentialEngine.run choose fetch extractHrefs domain limit fuel count1 s1

/-- AsyncEngine.run_async: the same loop as the sequential engine, with
the fetch awaited through aiohttp; the awaited response carries the
same status and body data, so the oracle has the same shape. -/
def AsyncEngine.run_async (choose : List String → Option String)
    (fetch : String → Except Unit (Int × String))
    (extractHrefs : String → List String)
    (domain : Domain) (limit : Option Nat) :
    Nat → Nat → EngineState → RunResult
  | 0, _, s => .outOfFuel s
  | fuel + 1, count, s =>
    if s.links.empty then .finished s
    else
      match Links.pop choose s.links with
      | none => .popError s
      | some (url, links1) =>
        let count1 := count + 1
        match fetch url with
        | .error _ => .fetchError { s with links := links1 } url
        | .ok (status, text) =>
          let page : Page := { url := url, domain := domain, status := status, text := text }
          let s1 : EngineState :=
            if page.url_is_valid then
              { links := links1.add_many (page.urls extractHrefs),
                report := s.report.add_good url }
            else
              { links := links1, report := s.report.add_bad url }
          if limitHit limit count1 then .finished s1
          else AsyncEngine.run_async choose fetch extractHrefs domain limit fuel count1 s1

/-- A whole sequential run from the command line: build the engine from
the root URL and drive it. -/
def SequentialEngine.runFromRoot (choose : List String → Option String)
    (fetch : String → Except Unit (Int × String))
    (extractHrefs : String → List String)
    (root_url : String) (limit : Option Nat) (fuel : Nat) : RunResult :=
  SequentialEngine.run choose fetch extractHrefs (Domain.from_url root_url) limit
    fuel 0 (EngineBase.initState root_url)

/-- A whole async run from the command line: build the engine from the
root URL and drive it through asyncio.run. -/
def AsyncEngine.runFromRoot (choose : List String → Option String)
    (fetch : String → Except Unit (Int × String))
    (extractHrefs : String → List String)
    (root_url : String) (limit : Option Nat) (fuel : Nat) : RunResult :=
  AsyncEngine.run_async choose fetch extractHrefs (Domain.from_url root_url) limit
    fuel 0 (EngineBase.initState root_url)

/-- The observable operations of the Links class; pop u is the run of
Links.pop in which set.pop happens to choose u. -/
inductive LinksOp where
  | add (link : String)
  | add_many (links : List String)
  | pop (u : String)

/-- One operation applied to a Links instance. The pop step requires
the chosen link to be unchecked, which is exactly what set.pop on the
derived unchecked set guarantees. -/
inductive Links.Step : Links → LinksOp → Links → Prop
  | add (l : Links) (link : String) :
      Links.Step l (.add link) (l.add link)
  | add_many (l : Links) (links : List String) :
      Links.Step l (.add_many links) (l.add_many links)
  | pop (l : Links) (u : String) (h : u ∈ l.unchecked) :
      Links.Step l (.pop u) (l.popWith u)

/-- A sequence of operations applied in order. -/
inductive Links.Reaches : Links → List LinksOp → Links → Prop
  | refl (l : Links) : Links.Reaches l [] l
  | step {l l1 l2 : Links} {op : LinksOp} {ops : List LinksOp} :
      Links.Step l op l1 → Links.Reaches l1 ops l2 → Links.Reaches l (op :: ops) l2

/-- The URLs returned by the pop operations of a sequence, in order. -/
def poppedUrls : List LinksOp → List String
  | [] => []
  | .pop u :: ops => u :: poppedUrls ops
  | .add _ :: ops => poppedUrls ops
  | .add_many _ :: ops => poppedUrls ops

/-- A chooser is valid when it only ever picks an element of the list
it is given; List.head? is one such chooser. -/
def ChooseValid (choose : List String → Option String) : Prop :=
  ∀ l u, choose l = some u → u ∈ l

/-- A chooser is complete when it picks an element whenever the list is
nonempty, as set.pop does. -/
def ChooseComplete (choose : List String → Option String) : Prop :=
  ∀ l, l ≠ [] → (choose l).isSome

/-- The URL whose fetch aborted the run, if any: the uncaught transport
error leaves its URL popped but classified in neither set. -/
def RunResult.abortedUrl : RunResult → Option String
  | .fetchError _ url => some url
  | _ => none

/-- No URL is recorded both good and bad. -/
def DisjointReport (s : EngineState) : Prop :=
  ∀ u, ¬(u ∈ s.report.good_urls ∧ u ∈ s.report.bad_urls)

/-- A URL is recorded good or bad exactly when it has been popped into
checked. -/
def PartitionReport (s : EngineState) : Prop :=
  ∀ u, (u ∈ s.report.good_urls ∨ u ∈ s.report.bad_urls) ↔ u ∈ s.links.checked

/-- A URL is recorded good or bad exactly when it has been popped into
checked and is not the URL whose fetch aborted the run. -/
def PartitionModAbort (r : RunResult) : Prop :=
  ∀ u, (u ∈ r.state.report.good_urls ∨ u ∈ r.state.report.bad_urls) ↔
    (u ∈ r.state.links.checked ∧ r.abortedUrl ≠ some u)

/-! Concrete scenario data used by the tabulated claims. The fetch
oracle and href extractor below realize the end-to-end crawl graph of
the spec: root page A (status 200) links to B (status 200, no links),
C (status 404) and D on a different netloc. Fetching D is made a
transport error so that a finished run certifies D was never fetched. -/

/-- The base page of the normalizer table: current page URL
https-example-com-start on domain example.com. -/
def startPage : Page :=
  { url := "https://example.com/start", domain := Domain.from_url "https://example.com",
    status := 0, text := "" }

/-- Root URL A of the end-to-end scenario. -/
def urlA : String := "https://example.com/a"

/-- URL B of the end-to-end scenario, same netloc as A. -/
def urlB : String := "https://example.com/b"

/-- URL C of the end-to-end scenario, same netloc as A, broken. -/
def urlC : String := "https://example.com/c"

/-- URL D of the end-to-end scenario, on a different netloc. -/
def urlD : String := "https://other.com/d"

/-- Fetch oracle of the end-to-end scenario. -/
def scenarioFetch : String → Except Unit (Int × String) := fun u =>
  if u = urlA then .ok (200, "bodyA")
  else if u = urlB then .ok (200, "bodyB")
  else if u = urlC then .ok (404, "bodyC")
  else .error ()

/-- Href extractor of the end-to-end scenario: page A links to B, C
and D; every other body has no anchors. -/
def scenarioHrefs : String → List String := fun t =>
  if t = "bodyA" then [urlB, urlC, urlD] else []

/-- A fetch oracle that always fails with a transport error. -/
def failFetch : String → Except Unit (Int × String) := fun _ => .error ()

/-- A fetch oracle that always answers 200 with an empty body. -/
def okFetch : String → Except Unit (Int × String) := fun _ => .ok (200, "")

/-- An href extractor that never finds an anchor. -/
def noHrefs : String → List String := fun _ => []

/-! Basic lemmas about the embedded set operations. -/

theorem contains_iff_mem (l : List String) (u : String) :
    l.contains u = true ↔ u ∈ l := by
  simp

theorem mem_unchecked (l : Links) (u : String) :
    u ∈ l.unchecked ↔ u ∈ l.all ∧ u ∉ l.checked := by
  simp [Links.unchecked]

theorem checked_add (l : Links) (link : String) :
    (l.add link).checked = l.checked := by
  unfold Links.add
  split <;> rfl

theorem checked_add_many (l : Links) (links : List String) :
    (l.add_many links).checked = l.checked := by
  induction links generalizing l with
  | nil => rfl
  | cons x xs ih =>
    simp only [Links.add_many, List.foldl_cons] at *
    rw [ih, checked_add]

theorem all_sub_add (l : Links) (link : String) :
    l.all ⊆ (l.add link).all := by
  unfold Links.add
  split
  · exact fun _ h => h
  · exact fun a h => List.mem_append_left _ h

theorem all_sub_add_many (l : Links) (links : List String) :
    l.all ⊆ (l.add_many links).all := by
  induction links generalizing l with
  | nil => exact fun _ h => h
  | cons x xs ih =>
    simp only [Links.add_many, List.foldl_cons] at *
    exact fun a h => ih (l.add x) (all_sub_add l x h)

theorem popWith_all (l : Links) (u : String) :
    (l.popWith u).all = l.all := rfl

theorem mem_checked_popWith (l : Links) (u v : String) :
    v ∈ (l.popWith u).checked ↔ v ∈ l.checked ∨ v = u := by
  unfold Links.popWith
  split
  · rename_i h
    rw [contains_iff_mem] at h
    constructor
    · exact fun hv => Or.inl hv
    · rintro (hv | rfl)
      · exact hv
      · exact h
  · simp

theorem checked_sub_popWith (l : Links) (u : String) :
    l.checked ⊆ (l.popWith u).checked := by
  intro v hv
  exact (mem_checked_popWith l u v).mpr (Or.inl hv)

theorem popWith_checked_length (l : Links) (u : String) (h : u ∉ l.checked) :
    (l.popWith u).checked.length = l.checked.length + 1 := by
  unfold Links.popWith
  split
  · rename_i hc
    rw [contains_iff_mem] at hc
    exact absurd hc h
  · simp

theorem pop_eq_some {choose : List String → Option String} {l l1 : Links} {u : String}
    (h : Links.pop choose l = some (u, l1)) :
    choose l.unchecked = some u ∧ l1 = l.popWith u := by
  unfold Links.pop at h
  cases hc : choose l.unchecked with
  | none => rw [hc] at h; exact absurd h (by simp)
  | some v =>
    rw [hc] at h
    simp only [Option.some.injEq, Prod.mk.injEq] at h
    obtain ⟨rfl, rfl⟩ := h
    exact ⟨rfl, rfl⟩

theorem pop_eq_none {choose : List String → Option String} {l : Links}
    (h : Links.pop choose l = none) :
    choose l.unchecked = none := by
  unfold Links.pop at h
  cases hc : choose l.unchecked with
  | none => rfl
  | some v => rw [hc] at h; exact absurd h (by simp)

theorem empty_false_iff (l : Links) :
    l.empty = false ↔ l.unchecked ≠ [] := by
  unfold Links.empty
  cases h : l.unchecked <;> simp [h]

/-! Basic lemmas about the report. -/

theorem add_good_bad (r : Report) (url : String) :
    (r.add_good url).bad_urls = r.bad_urls := by
  unfold Report.add_good
  split <;> rfl

theorem add_bad_good (r : Report) (url : String) :
    (r.add_bad url).good_urls = r.good_urls := by
  unfold Report.add_bad
  split <;> rfl

theorem mem_add_good (r : Report) (url v : String) :
    v ∈ (r.add_good url).good_urls ↔ v ∈ r.good_urls ∨ v = url := by
  unfold Report.add_good
  split
  · rename_i h
    rw [contains_iff_mem] at h
    constructor
    · exact fun hv => Or.inl hv
    · rintro (hv | rfl)
      · exact hv
      · exact h
  · simp

theorem mem_add_bad (r : Report) (url v : String) :
    v ∈ (r.add_bad url).bad_urls ↔ v ∈ r.bad_urls ∨ v = url := by
  unfold Report.add_bad
  split
  · rename_i h
    rw [contains_iff_mem] at h
    constructor
    · exact fun hv => Or.inl hv
    · rintro (hv | rfl)
      · exact hv
      · exact h
  · simp

theorem good_sub_add_good (r : Report) (url : String) :
    r.good_urls ⊆ (r.add_good url).good_urls := by
  intro v hv
  exact (mem_add_good r url v).mpr (Or.inl hv)

theorem bad_sub_add_bad (r : Report) (url : String) :
    r.bad_urls ⊆ (r.add_bad url).bad_urls := by
  intro v hv
  exact (mem_add_bad r url v).mpr (Or.inl hv)

/-- List.head? only ever returns a member, so it is a valid chooser. -/
theorem head_choose_valid : ChooseValid List.head? := by
  intro l u h
  cases l with
  | nil => exact absurd h (by simp)
  | cons x xs =>
    simp only [List.head?_cons, Option.some.injEq] at h
    exact h ▸ List.mem_cons_self x xs

/-- List.head? returns an element on every nonempty list, so it is a
complete chooser. -/
theorem head_choose_complete : ChooseComplete List.head? := by
  intro l h
  cases l with
  | nil => exact absurd rfl h
  | cons x xs => simp

/-! Lemmas about operation sequences on the frontier. -/

theorem step_checked_sub {l l1 : Links} {op : LinksOp} (h : Links.Step l op l1) :
    l.checked ⊆ l1.checked := by
  cases h with
  | add link => rw [checked_add]; exact fun _ hv => hv
  | add_many links => rw [checked_add_many]; exact fun _ hv => hv
  | pop u hu => exact checked_sub_popWith l u

theorem step_inv {l l1 : Links} {op : LinksOp} (h : Links.Step l op l1)
    (hinv : l.checked ⊆ l.all) : l1.checked ⊆ l1.all := by
  cases h with
  | add link =>
    rw [checked_add]
    exact fun v hv => all_sub_add l link (hinv hv)
  | add_many links =>
    rw [checked_add_many]
    exact fun v hv => all_sub_add_many l links (hinv hv)
  | pop u hu =>
    intro v hv
    rw [popWith_all]
    rcases (mem_checked_popWith l u v).mp hv with hv2 | rfl
    · exact hinv hv2
    · exact ((mem_unchecked l v).mp hu).1

theorem reaches_checked_sub {l l2 : Links} {ops : List LinksOp}
    (h : Links.Reaches l ops l2) : l.checked ⊆ l2.checked := by
  induction h with
  | refl l => exact fun _ hv => hv
  | step hstep _ ih => exact fun v hv => ih (step_checked_sub hstep hv)

theorem reaches_inv {l l2 : Links} {ops : List LinksOp}
    (h : Links.Reaches l ops l2) (hinv : l.checked ⊆ l.all) : l2.checked ⊆ l2.all := by
  induction h with
  | refl l => exact hinv
  | step hstep _ ih => exact ih (step_inv hstep hinv)

theorem step_pop_not_checked {l l1 : Links} {u : String}
    (h : Links.Step l (.pop u) l1) : u ∉ l.checked := by
  cases h
  rename_i hu
  exact ((mem_unchecked l u).mp hu).2

theorem reaches_popped_not_checked {l l2 : Links} {ops : List LinksOp}
    (h : Links.Reaches l ops l2) : ∀ u ∈ poppedUrls ops, u ∉ l.checked := by
  induction h with
  | refl l => intro u hu; exact absurd hu (by simp [poppedUrls])
  | step hstep _ ih =>
    rename_i lx l1 l2x op ops hrest
    intro u hu
    cases op with
    | pop v =>
      simp only [poppedUrls, List.mem_cons] at hu
      rcases hu with rfl | hu
      · exact step_pop_not_checked hstep
      · exact fun hc => ih u hu (step_checked_sub hstep hc)
    | add link =>
      simp only [poppedUrls] at hu
      exact fun hc => ih u hu (step_checked_sub hstep hc)
    | add_many links =>
      simp only [poppedUrls] at hu
      exact fun hc => ih u hu (step_checked_sub hstep hc)

theorem reaches_popped_nodup {l l2 : Links} {ops : List LinksOp}
    (h : Links.Reaches l ops l2) : (poppedUrls ops).Nodup := by
  induction h with
  | refl l => simp [poppedUrls]
  | step hstep hrest ih =>
    rename_i lx l1 l2x op ops
    cases op with
    | pop v =>
      simp only [poppedUrls, List.nodup_cons]
      refine ⟨fun hv => ?_, ih⟩
      have hvc : v ∈ l1.checked := by
        cases hstep
        exact (mem_checked_popWith lx v v).mpr (Or.inr rfl)
      exact reaches_popped_not_checked hrest v hv hvc
    | add link => simpa [poppedUrls] using ih
    | add_many links => simpa [poppedUrls] using ih

/-! Induction lemmas about the sequential run loop. -/

theorem run_mono (choose : List String → Option String)
    (fetch : String → Except Unit (Int × String)) (eh : String → List String)
    (domain : Domain) (limit : Option Nat) :
    ∀ (fuel count : Nat) (s : EngineState),
      s.report.good_urls ⊆
        (SequentialEngine.run choose fetch eh domain limit fuel count s).state.report.good_urls ∧
      s.report.bad_urls ⊆
        (SequentialEngine.run choose fetch eh domain limit fuel count s).state.report.bad_urls ∧
      s.links.checked ⊆
        (SequentialEngine.run choose fetch eh domain limit fuel count s).state.links.checked := by
  intro fuel
  induction fuel with
  | zero =>
    intro count s
    exact ⟨fun _ h => h, fun _ h => h, fun _ h => h⟩
  | succ n ih =>
    intro count s
    by_cases hemp : s.links.empty = true
    · simp only [SequentialEngine.run, hemp, if_true, RunResult.state]
      exact ⟨fun _ h => h, fun _ h => h, fun _ h => h⟩
    · cases hpop : Links.pop choose s.links with
      | none =>
        simp only [SequentialEngine.run, hemp, Bool.false_eq_true, if_false, hpop, RunResult.state]
        exact ⟨fun _ h => h, fun _ h => h, fun _ h => h⟩
      | some p =>
        obtain ⟨url, links1⟩ := p
        obtain ⟨hch, rfl⟩ := pop_eq_some hpop
        cases hf : fetch url with
        | error e =>
          simp only [SequentialEngine.run, hemp, Bool.false_eq_true, if_false, hpop, hf, RunResult.state]
          exact ⟨fun _ h => h, fun _ h => h, checked_sub_popWith s.links url⟩
        | ok q =>
          obtain ⟨status, text⟩ := q
          by_cases hval :
              Page.url_is_valid { url := url, domain := domain, status := status, text := text } = true
          · by_cases hlim : limitHit limit (count + 1) = true
            · simp only [SequentialEngine.run, hemp, hpop, hf, hval, hlim,
                Bool.false_eq_true, if_false, if_true, RunResult.state]
              refine ⟨good_sub_add_good s.report url, ?_, ?_⟩
              · rw [add_good_bad]; exact fun _ h => h
              · rw [checked_add_many]
                exact checked_sub_popWith s.links url
            · simp only [SequentialEngine.run, hemp, hpop, hf, hval, hlim,
                Bool.false_eq_true, if_false, if_true, RunResult.state]
              obtain ⟨ihg, ihb, ihc⟩ := ih (count + 1)
                { links := (s.links.popWith url).add_many
                    (Page.urls { url := url, domain := domain, status := status, text := text } eh),
                  report := s.report.add_good url }
              refine ⟨List.Subset.trans (good_sub_add_good s.report url) ihg, ?_, ?_⟩
              · refine List.Subset.trans ?_ ihb
                rw [add_good_bad]; exact fun _ h => h
              · refine List.Subset.trans ?_ ihc
                simp only [checked_add_many]
                exact checked_sub_popWith s.links url
          · by_cases hlim : limitHit limit (count + 1) = true
            · simp only [SequentialEngine.run, hemp, hpop, hf, hval, hlim,
                Bool.false_eq_true, if_false, if_true, RunResult.state]
              refine ⟨?_, bad_sub_add_bad s.report url, checked_sub_popWith s.links url⟩
              rw [add_bad_good]; exact fun _ h => h
            · simp only [SequentialEngine.run, hemp, hpop, hf, hval, hlim,
                Bool.false_eq_true, if_false, if_true, RunResult.state]
              obtain ⟨ihg, ihb, ihc⟩ := ih (count + 1)
                { links := s.links.popWith url, report := s.report.add_bad url }
              refine ⟨?_, List.Subset.trans (bad_sub_add_bad s.report url) ihb,
                List.Subset.trans (checked_sub_popWith s.links url) ihc⟩
              refine List.Subset.trans ?_ ihg
              rw [add_bad_good]; exact fun _ h => h

theorem part_step_good {s : EngineState} {url : String} {links1 : Links}
    (hcheck : ∀ v, v ∈ links1.checked ↔ v ∈ s.links.checked ∨ v = url)
    (hurl : url ∉ s.links.checked)
    (hd : DisjointReport s) (hp : PartitionReport s) :
    DisjointReport { links := links1, report := s.report.add_good url } ∧
    PartitionReport { links := links1, report := s.report.add_good url } := by
  constructor
  · intro u ⟨hg, hb⟩
    rw [add_good_bad] at hb
    rcases (mem_add_good s.report url u).mp hg with hg2 | rfl
    · exact hd u ⟨hg2, hb⟩
    · exact hurl ((hp u).mp (Or.inr hb))
  · intro u
    constructor
    · rintro (hg | hb)
      · rcases (mem_add_good s.report url u).mp hg with hg2 | rfl
        · exact (hcheck u).mpr (Or.inl ((hp u).mp (Or.inl hg2)))
        · exact (hcheck u).mpr (Or.inr rfl)
      · rw [add_good_bad] at hb
        exact (hcheck u).mpr (Or.inl ((hp u).mp (Or.inr hb)))
    · intro hc
      rcases (hcheck u).mp hc with hc2 | rfl
      · rcases (hp u).mpr hc2 with hg | hb
        · exact Or.inl ((mem_add_good s.report url u).mpr (Or.inl hg))
        · rw [add_good_bad]
          exact Or.inr hb
      · exact Or.inl ((mem_add_good s.report u u).mpr (Or.inr rfl))

theorem part_step_bad {s : EngineState} {url : String} {links1 : Links}
    (hcheck : ∀ v, v ∈ links1.checked ↔ v ∈ s.links.checked ∨ v = url)
    (hurl : url ∉ s.links.checked)
    (hd : DisjointReport s) (hp : PartitionReport s) :
    DisjointReport { links := links1, report := s.report.add_bad url } ∧
    PartitionReport { links := links1, report := s.report.add_bad url } := by
  constructor
  · intro u ⟨hg, hb⟩
    rw [add_bad_good] at hg
    rcases (mem_add_bad s.report url u).mp hb with hb2 | rfl
    · exact hd u ⟨hg, hb2⟩
    · exact hurl ((hp u).mp (Or.inl hg))
  · intro u
    constructor
    · rintro (hg | hb)
      · rw [add_bad_good] at hg
        exact (hcheck u).mpr (Or.inl ((hp u).mp (Or.inl hg)))
      · rcases (mem_add_bad s.report url u).mp hb with hb2 | rfl
        · exact (hcheck u).mpr (Or.inl ((hp u).mp (Or.inr hb2)))
        · exact (hcheck u).mpr (Or.inr rfl)
    · intro hc
      rcases (hcheck u).mp hc with hc2 | rfl
      · rcases (hp u).mpr hc2 with hg | hb
        · rw [add_bad_good]
          exact Or.inl hg
        · exact Or.inr ((mem_add_bad s.report url u).mpr (Or.inl hb))
      · exact Or.inr ((mem_add_bad s.report u u).mpr (Or.inr rfl))

/-- The checked set of the frontier after a pop followed by add_many:
membership is old checked plus the popped URL. -/
theorem checked_pop_add_many (l : Links) (url : String) (xs : List String) :
    ∀ v, v ∈ ((l.popWith url).add_many xs).checked ↔ v ∈ l.checked ∨ v = url := by
  intro v
  rw [checked_add_many]
  exact mem_checked_popWith l url v

theorem run_partition (choose : List String → Option String)
    (fetch : String → Except Unit (Int × String)) (eh : String → List String)
    (domain : Domain) (limit : Option Nat) (hv : ChooseValid choose) :
    ∀ (fuel count : Nat) (s : EngineState), DisjointReport s → PartitionReport s →
      DisjointReport (SequentialEngine.run choose fetch eh domain limit fuel count s).state ∧
      PartitionModAbort (SequentialEngine.run choose fetch eh domain limit fuel count s) := by
  intro fuel
  induction fuel with
  | zero =>
    intro count s hd hp
    refine ⟨hd, fun u => ?_⟩
    simp only [SequentialEngine.run, RunResult.state, RunResult.abortedUrl]
    simpa using hp u
  | succ n ih =>
    intro count s hd hp
    by_cases hemp : s.links.empty = true
    · simp only [SequentialEngine.run, hemp, if_true, PartitionModAbort, RunResult.state,
        RunResult.abortedUrl]
      refine ⟨hd, fun u => ?_⟩
      simpa using hp u
    · cases hpop : Links.pop choose s.links with
      | none =>
        simp only [SequentialEngine.run, hemp, Bool.false_eq_true, if_false, hpop,
          PartitionModAbort, RunResult.state, RunResult.abortedUrl]
        refine ⟨hd, fun u => ?_⟩
        simpa using hp u
      | some p =>
        obtain ⟨url, links1⟩ := p
        obtain ⟨hch, rfl⟩ := pop_eq_some hpop
        have hurl : url ∉ s.links.checked := ((mem_unchecked s.links url).mp (hv _ url hch)).2
        cases hf : fetch url with
        | error e =>
          simp only [SequentialEngine.run, hemp, Bool.false_eq_true, if_false, hpop, hf,
            PartitionModAbort, RunResult.state, RunResult.abortedUrl]
          refine ⟨hd, fun u => ?_⟩
          constructor
          · rintro (hg | hb)
            · have hc := (hp u).mp (Or.inl hg)
              refine ⟨(mem_checked_popWith s.links url u).mpr (Or.inl hc), fun he => ?_⟩
              exact hurl (by rw [Option.some.inj he]; exact hc)
            · have hc := (hp u).mp (Or.inr hb)
              refine ⟨(mem_checked_popWith s.links url u).mpr (Or.inl hc), fun he => ?_⟩
              exact hurl (by rw [Option.some.inj he]; exact hc)
          · rintro ⟨hc, hne⟩
            rcases (mem_checked_popWith s.links url u).mp hc with hc2 | rfl
            · exact (hp u).mpr hc2
            · exact absurd rfl hne
        | ok q =>
          obtain ⟨status, text⟩ := q
          by_cases hval :
              Page.url_is_valid { url := url, domain := domain, status := status, text := text } = true
          · have hstep := part_step_good
              (checked_pop_add_many s.links url
                (Page.urls { url := url, domain := domain, status := status, text := text } eh))
              hurl hd hp
            by_cases hlim : limitHit limit (count + 1) = true
            · simp only [SequentialEngine.run, hemp, hpop, hf, hval, hlim,
                Bool.false_eq_true, if_false, if_true, PartitionModAbort, RunResult.state,
                RunResult.abortedUrl]
              refine ⟨hstep.1, fun u => ?_⟩
              simpa using hstep.2 u
            · simp only [SequentialEngine.run, hemp, hpop, hf, hval, hlim,
                Bool.false_eq_true, if_false, if_true]
              exact ih (count + 1) _ hstep.1 hstep.2
          · have hstep := part_step_bad (fun v => mem_checked_popWith s.links url v) hurl hd hp
            by_cases hlim : limitHit limit (count + 1) = true
            · simp only [SequentialEngine.run, hemp, hpop, hf, hval, hlim,
                Bool.false_eq_true, if_false, if_true, PartitionModAbort, RunResult.state,
                RunResult.abortedUrl]
              refine ⟨hstep.1, fun u => ?_⟩
              simpa using hstep.2 u
            · simp only [SequentialEngine.run, hemp, hpop, hf, hval, hlim,
                Bool.false_eq_true, if_false, if_true]
              exact ih (count + 1) _ hstep.1 hstep.2

theorem run_card (choose : List String → Option String)
    (fetch : String → Except Unit (Int × String)) (eh : String → List String)
    (domain : Domain) (n : Nat) (hv : ChooseValid choose) (hn : 0 < n) :
    ∀ (fuel count : Nat) (s : EngineState), count < n →
      (SequentialEngine.run choose fetch eh domain (some n) fuel count s).state.links.checked.length ≤
        s.links.checked.length + (n - count) := by
  intro fuel
  induction fuel with
  | zero =>
    intro count s hcount
    simp only [SequentialEngine.run, RunResult.state]
    exact Nat.le_add_right _ _
  | succ m ih =>
    intro count s hcount
    by_cases hemp : s.links.empty = true
    · simp only [SequentialEngine.run, hemp, if_true, RunResult.state]
      exact Nat.le_add_right _ _
    · cases hpop : Links.pop choose s.links with
      | none =>
        simp only [SequentialEngine.run, hemp, Bool.false_eq_true, if_false, hpop,
          RunResult.state]
        exact Nat.le_add_right _ _
      | some p =>
        obtain ⟨url, links1⟩ := p
        obtain ⟨hch, rfl⟩ := pop_eq_some hpop
        have hurl : url ∉ s.links.checked := ((mem_unchecked s.links url).mp (hv _ url hch)).2
        have hlen : (s.links.popWith url).checked.length = s.links.checked.length + 1 :=
          popWith_checked_length s.links url hurl
        cases hf : fetch url with
        | error e =>
          simp only [SequentialEngine.run, hemp, Bool.false_eq_true, if_false, hpop, hf,
            RunResult.state]
          omega
        | ok q =>
          obtain ⟨status, text⟩ := q
          by_cases hval :
              Page.url_is_valid { url := url, domain := domain, status := status, text := text } = true
          · by_cases hlim : limitHit (some n) (count + 1) = true
            · simp only [SequentialEngine.run, hemp, hpop, hf, hval, hlim,
                Bool.false_eq_true, if_false, if_true, RunResult.state, checked_add_many]
              omega
            · have hcount1 : count + 1 < n := by
                by_contra hcc
                push_neg at hcc
                exact hlim (by simp [limitHit, hcc, Nat.pos_iff_ne_zero.mp hn])
              simp only [SequentialEngine.run, hemp, hpop, hf, hval, hlim,
                Bool.false_eq_true, if_false, if_true]
              have hrec := ih (count + 1)
                { links := (s.links.popWith url).add_many
                    (Page.urls { url := url, domain := domain, status := status, text := text } eh),
                  report := s.report.add_good url } hcount1
              simp only [checked_add_many] at hrec
              omega
          · by_cases hlim : limitHit (some n) (count + 1) = true
            · simp only [SequentialEngine.run, hemp, hpop, hf, hval, hlim,
                Bool.false_eq_true, if_false, if_true, RunResult.state]
              omega
            · have hcount1 : count + 1 < n := by
                by_contra hcc
                push_neg at hcc
                exact hlim (by simp [limitHit, hcc, Nat.pos_iff_ne_zero.mp hn])
              simp only [SequentialEngine.run, hemp, hpop, hf, hval, hlim,
                Bool.false_eq_true, if_false, if_true]
              have hrec := ih (count + 1)
                { links := s.links.popWith url, report := s.report.add_bad url } hcount1
              dsimp only at hrec
              omega

theorem run_no_popError (choose : List String → Option String)
    (fetch : String → Except Unit (Int × String)) (eh : String → List String)
    (domain : Domain) (limit : Option Nat) (hcomp : ChooseComplete choose) :
    ∀ (fuel count : Nat) (s s1 : EngineState),
      SequentialEngine.run choose fetch eh domain limit fuel count s ≠ .popError s1 := by
  intro fuel
  induction fuel with
  | zero =>
    intro count s s1
    simp [SequentialEngine.run]
  | succ m ih =>
    intro count s s1
    by_cases hemp : s.links.empty = true
    · simp [SequentialEngine.run, hemp]
    · have hemp2 : s.links.empty = false := by
        revert hemp
        cases s.links.empty <;> simp
      have hne : s.links.unchecked ≠ [] := (empty_false_iff s.links).mp hemp2
      have hsome := hcomp _ hne
      cases hch : choose s.links.unchecked with
      | none => rw [hch] at hsome; exact absurd hsome (by simp)
      | some u =>
        have hpop : Links.pop choose s.links = some (u, s.links.popWith u) := by
          unfold Links.pop
          rw [hch]
        cases hf : fetch u with
        | error e => simp [SequentialEngine.run, hemp, hpop, hf]
        | ok q =>
          obtain ⟨status, text⟩ := q
          by_cases hval :
              Page.url_is_valid { url := u, domain := domain, status := status, text := text } = true
          · by_cases hlim : limitHit limit (count + 1) = true
            · simp [SequentialEngine.run, hemp, hpop, hf, hval, hlim]
            · simp only [SequentialEngine.run, hemp, hpop, hf, hval, hlim,
                Bool.false_eq_true, if_false, if_true]
              exact ih (count + 1) _ s1
          · by_cases hlim : limitHit limit (count + 1) = true
            · simp [SequentialEngine.run, hemp, hpop, hf, hval, hlim]
            · simp only [SequentialEngine.run, hemp, hpop, hf, hval, hlim,
                Bool.false_eq_true, if_false, if_true]
              exact ih (count + 1) _ s1

theorem run_no_fetchError (choose : List String → Option String)
    (fetch : String → Except Unit (Int × String)) (eh : String → List String)
    (domain : Domain) (limit : Option Nat)
    (htotal : ∀ u, ∃ p, fetch u = .ok p) :
    ∀ (fuel count : Nat) (s s1 : EngineState) (url1 : String),
      SequentialEngine.run choose fetch eh domain limit fuel count s ≠ .fetchError s1 url1 := by
  intro fuel
  induction fuel with
  | zero =>
    intro count s s1 url1
    simp [SequentialEngine.run]
  | succ m ih =>
    intro count s s1 url1
    by_cases hemp : s.links.empty = true
    · simp [SequentialEngine.run, hemp]
    · cases hpop : Links.pop choose s.links with
      | none => simp [SequentialEngine.run, hemp, hpop]
      | some p =>
        obtain ⟨url, links1⟩ := p
        obtain ⟨⟨status, text⟩, hf⟩ := htotal url
        by_cases hval :
            Page.url_is_valid { url := url, domain := domain, status := status, text := text } = true
        · by_cases hlim : limitHit limit (count + 1) = true
          · simp [SequentialEngine.run, hemp, hpop, hf, hval, hlim]
          · simp only [SequentialEngine.run, hemp, hpop, hf, hval, hlim,
              Bool.false_eq_true, if_false, if_true]
            exact ih (count + 1) _ s1 url1
        · by_cases hlim : limitHit limit (count + 1) = true
          · simp [SequentialEngine.run, hemp, hpop, hf, hval, hlim]
          · simp only [SequentialEngine.run, hemp, hpop, hf, hval, hlim,
              Bool.false_eq_true, if_false, if_true]
            exact ih (count + 1) _ s1 url1

/-- The two run loops are the same function of the chooser, the fetch
oracle and the extractor: the async loop only differs in how the fetch
is awaited. -/
theorem seq_eq_async (choose : List String → Option String)
    (fetch : String → Except Unit (Int × String)) (eh : String → List String)
    (domain : Domain) (limit : Option Nat) :
    ∀ (fuel count : Nat) (s : EngineState),
      SequentialEngine.run choose fetch eh domain limit fuel count s =
      AsyncEngine.run_async choose fetch eh domain limit fuel count s := by
  intro fuel
  induction fuel with
  | zero => intro count s; rfl
  | succ m ih =>
    intro count s
    by_cases hemp : s.links.empty = true
    · simp [SequentialEngine.run, AsyncEngine.run_async, hemp]
    · cases hpop : Links.pop choose s.links with
      | none => simp [SequentialEngine.run, AsyncEngine.run_async, hemp, hpop]
      | some p =>
        obtain ⟨url, links1⟩ := p
        cases hf : fetch url with
        | error e => simp [SequentialEngine.run, AsyncEngine.run_async, hemp, hpop, hf]
        | ok q =>
          obtain ⟨status, text⟩ := q
          by_cases hval :
              Page.url_is_valid { url := url, domain := domain, status := status, text := text } = true
          · by_cases hlim : limitHit limit (count + 1) = true
            · simp [SequentialEngine.run, AsyncEngine.run_async, hemp, hpop, hf, hval, hlim]
            · simp only [SequentialEngine.run, AsyncEngine.run_async, hemp, hpop, hf, hval, hlim,
                Bool.false_eq_true, if_false, if_true]
              exact ih (count + 1) _
          · by_cases hlim : limitHit limit (count + 1) = true
            · simp [SequentialEngine.run, AsyncEngine.run_async, hemp, hpop, hf, hval, hlim]
            · simp only [SequentialEngine.run, AsyncEngine.run_async, hemp, hpop, hf, hval, hlim,
                Bool.false_eq_true, if_false, if_true]
              exact ih (count + 1) _

theorem init_disj (root : String) : DisjointReport (EngineBase.initState root) := by
  intro u ⟨hg, _⟩
  simp [EngineBase.initState, Report.init] at hg

theorem init_part (root : String) : PartitionReport (EngineBase.initState root) := by
  intro u
  simp [EngineBase.initState, Report.init, checked_add, Links.init]

/-! The claims. -/

/-- Claim C1: for every sequence of add, add_many and pop operations on
a Links instance starting from its initial state, checked is a subset
of all after every operation, the popped URLs are pairwise distinct (a
URL once popped is never popped again), and a pop step never returns a
URL already in checked. -/
theorem frontier_invariant_holds :
    (∀ (ops : List LinksOp) (l : Links), Links.Reaches Links.init ops l →
      l.checked ⊆ l.all ∧ (poppedUrls ops).Nodup) ∧
    (∀ (l l1 : Links) (u : String), Links.Step l (.pop u) l1 → u ∉ l.checked) := by
  constructor
  · intro ops l h
    exact ⟨reaches_inv h (fun v hv => hv), reaches_popped_nodup h⟩
  · intro l l1 u h
    exact step_pop_not_checked h

/-- Witness for C1 at a concrete two-operation trace. -/
theorem frontier_invariant_holds_witness :
    ((Links.init.add "https://example.com/a").popWith "https://example.com/a").checked ⊆
      ((Links.init.add "https://example.com/a").popWith "https://example.com/a").all ∧
    (poppedUrls [LinksOp.add "https://example.com/a",
      LinksOp.pop "https://example.com/a"]).Nodup := by
  have h : Links.Reaches Links.init
      [LinksOp.add "https://example.com/a", LinksOp.pop "https://example.com/a"]
      ((Links.init.add "https://example.com/a").popWith "https://example.com/a") :=
    Links.Reaches.step (Links.Step.add _ _)
      (Links.Reaches.step (Links.Step.pop _ _ (by decide)) (Links.Reaches.refl _))
  exact frontier_invariant_holds.1 _ _ h

/-- Claim C2 (counterexample): an absolute in-domain href that carries
a fragment is yielded by the extraction pipeline unchanged, not with
its fragment stripped, refuting the claim at this input. -/
theorem full_url_fragment_kept_counterexample :
    startPage.extract_urls ["https://example.com/x#frag"] = ["https://example.com/x#frag"] ∧
    startPage.extract_urls ["https://example.com/x#frag"] ≠
      [drop_fragment "https://example.com/x#frag"] ∧
    startPage.domain.url_in_domain "https://example.com/x#frag" = true ∧
    drop_fragment "https://example.com/x#frag" = "https://example.com/x" := by decide

/-- Claim C2 (amended): for every href that is already an absolute
http or https URL, the extraction pipeline keeps the URL unchanged,
fragment included, when the netloc of the URL equals the domain
netloc, and discards it otherwise. -/
theorem full_url_kept_unchanged_iff_in_domain :
    ∀ (p : Page) (href : String) (rest : List String),
      Page.is_full_url href = true →
      p.extract_urls (href :: rest) =
        (if p.domain.url_in_domain href then href :: p.extract_urls rest
         else p.extract_urls rest) := by
  intro p href rest h
  simp only [Page.extract_urls, List.foldr_cons, h, if_true]

/-- Witness for the amended C2 at a concrete in-domain href. -/
theorem full_url_kept_unchanged_iff_in_domain_witness :
    startPage.extract_urls ["https://example.com/x#frag"] =
      (if startPage.domain.url_in_domain "https://example.com/x#frag" then
        "https://example.com/x#frag" :: startPage.extract_urls []
       else startPage.extract_urls []) :=
  full_url_kept_unchanged_iff_in_domain startPage "https://example.com/x#frag" [] (by decide)

/-- Claim C3 (code bug): the dataclass constructor of Page never runs
the domain-containment check, because the check lives in a method
named with a single leading underscore while the dataclass machinery
only calls a method named exactly with dunder post init; constructing
a Page whose URL is outside the domain therefore succeeds even though
the check written in the source would reject it. -/
theorem page_construction_check_never_runs :
    (∀ (url : String) (domain : Domain) (status : Int) (text : String),
      Page.construct url domain status text =
        some { url := url, domain := domain, status := status, text := text }) ∧
    Page.construct "https://other.com/x" (Domain.mk "https" "example.com") 200 "" =
      some (Page.mk "https://other.com/x" (Domain.mk "https" "example.com") 200 "") ∧
    Page.post_init_check
      (Page.mk "https://other.com/x" (Domain.mk "https" "example.com") 200 "") = false := by
  refine ⟨fun url domain status text => rfl, by decide, by decide⟩

/-- Claim C4 (counterexample): a transport error on the very first
fetch escapes the run loop and aborts the crawl, leaving the popped
URL in neither the good nor the bad set. -/
theorem fetch_error_aborts_crawl_counterexample :
    SequentialEngine.runFromRoot List.head? failFetch noHrefs "https://example.com/" none 5 =
      .fetchError
        { links := { all := ["https://example.com/"], checked := ["https://example.com/"] },
          report := { bad_urls := [], good_urls := [] } } "https://example.com/" ∧
    "https://example.com/" ∉ (SequentialEngine.runFromRoot List.head? failFetch noHrefs
      "https://example.com/" none 5).state.report.good_urls ∧
    "https://example.com/" ∉ (SequentialEngine.runFromRoot List.head? failFetch noHrefs
      "https://example.com/" none 5).state.report.bad_urls := by decide

/-- Claim C4 (amended): a transport-level fetch error is not contained,
it aborts the whole crawl with the failing URL classified in neither
set; when every fetch returns a response, the run never aborts and
every popped URL ends up in exactly one of the good and bad sets. -/
theorem fetch_errors_abort_otherwise_partitioned :
    ∀ (choose : List String → Option String) (fetch : String → Except Unit (Int × String))
      (eh : String → List String) (root : String) (limit : Option Nat) (fuel : Nat),
      ChooseValid choose → ChooseComplete choose → (∀ u, ∃ p, fetch u = .ok p) →
      (∀ (s1 : EngineState) (url1 : String),
        SequentialEngine.runFromRoot choose fetch eh root limit fuel ≠ .fetchError s1 url1) ∧
      (∀ s1 : EngineState,
        SequentialEngine.runFromRoot choose fetch eh root limit fuel ≠ .popError s1) ∧
      DisjointReport (SequentialEngine.runFromRoot choose fetch eh root limit fuel).state ∧
      PartitionReport (SequentialEngine.runFromRoot choose fetch eh root limit fuel).state := by
  intro choose fetch eh root limit fuel hv hcomp htotal
  simp only [SequentialEngine.runFromRoot]
  have hnf := run_no_fetchError choose fetch eh (Domain.from_url root) limit htotal fuel 0
    (EngineBase.initState root)
  have hnp := run_no_popError choose fetch eh (Domain.from_url root) limit hcomp fuel 0
    (EngineBase.initState root)
  have hpart := run_partition choose fetch eh (Domain.from_url root) limit hv fuel 0
    (EngineBase.initState root) (init_disj root) (init_part root)
  refine ⟨fun s1 url1 => hnf s1 url1, fun s1 => hnp s1, hpart.1, ?_⟩
  have habort : (SequentialEngine.run choose fetch eh (Domain.from_url root) limit fuel 0
      (EngineBase.initState root)).abortedUrl = none := by
    cases hr : SequentialEngine.run choose fetch eh (Domain.from_url root) limit fuel 0
        (EngineBase.initState root) with
    | finished s1 => rfl
    | outOfFuel s1 => rfl
    | popError s1 => rfl
    | fetchError s1 url1 => exact absurd hr (hnf s1 url1)
  intro u
  have hu := hpart.2 u
  rw [habort] at hu
  simpa using hu

/-- Witness for the amended C4 with the always-answering oracle. -/
theorem fetch_errors_abort_otherwise_partitioned_witness :
    DisjointReport (SequentialEngine.runFromRoot List.head? okFetch noHrefs
      "https://example.com/" none 5).state ∧
    PartitionReport (SequentialEngine.runFromRoot List.head? okFetch noHrefs
      "https://example.com/" none 5).state :=
  (fetch_errors_abort_otherwise_partitioned List.head? okFetch noHrefs
    "https://example.com/" none 5 head_choose_valid head_choose_complete
    (fun _ => ⟨(200, ""), rfl⟩)).2.2

/-- Claim C5: with a positive limit n the run pops at most n URLs (the
checked set, which receives exactly the popped URLs, has at most n
elements); with limit one on the scenario graph only the root A is
processed while B and C are discovered but never fetched. -/
theorem limit_bounds_processed :
    (∀ (choose : List String → Option String) (fetch : String → Except Unit (Int × String))
      (eh : String → List String) (root : String) (n fuel : Nat),
      ChooseValid choose → 0 < n →
      (SequentialEngine.runFromRoot choose fetch eh root (some n) fuel).state.links.checked.length
        ≤ n) ∧
    (SequentialEngine.runFromRoot List.head? scenarioFetch scenarioHrefs urlA (some 1) 10 =
      .finished { links := { all := [urlA, urlB, urlC], checked := [urlA] },
                  report := { bad_urls := [], good_urls := [urlA] } } ∧
     urlB ∈ (SequentialEngine.runFromRoot List.head? scenarioFetch scenarioHrefs urlA
       (some 1) 10).state.links.all ∧
     urlB ∉ (SequentialEngine.runFromRoot List.head? scenarioFetch scenarioHrefs urlA
       (some 1) 10).state.links.checked ∧
     urlC ∈ (SequentialEngine.runFromRoot List.head? scenarioFetch scenarioHrefs urlA
       (some 1) 10).state.links.all ∧
     urlC ∉ (SequentialEngine.runFromRoot List.head? scenarioFetch scenarioHrefs urlA
       (some 1) 10).state.links.checked) := by
  constructor
  · intro choose fetch eh root n fuel hv hn
    simp only [SequentialEngine.runFromRoot]
    have hb := run_card choose fetch eh (Domain.from_url root) n hv hn fuel 0
      (EngineBase.initState root) hn
    have hinit : (EngineBase.initState root).links.checked.length = 0 := by
      simp [EngineBase.initState, checked_add, Links.init]
    omega
  · exact ⟨by decide, by decide, by decide, by decide, by decide⟩

/-- Witness for C5 with limit one on the scenario oracle. -/
theorem limit_bounds_processed_witness :
    (SequentialEngine.runFromRoot List.head? scenarioFetch scenarioHrefs urlA
      (some 1) 10).state.links.checked.length ≤ 1 :=
  limit_bounds_processed.1 List.head? scenarioFetch scenarioHrefs urlA 1 10
    head_choose_valid (by decide)

/-- Claim C6: for every root URL, limit and fetch oracle (and chooser
and extractor, shared between the engines), the sequential engine and
the async engine produce the same good set, the same bad set and the
same exit code. -/
theorem engines_equivalent :
    ∀ (choose : List String → Option String) (fetch : String → Except Unit (Int × String))
      (eh : String → List String) (root : String) (limit : Option Nat) (fuel : Nat),
      (SequentialEngine.runFromRoot choose fetch eh root limit fuel).state.report.good_urls =
        (AsyncEngine.runFromRoot choose fetch eh root limit fuel).state.report.good_urls ∧
      (SequentialEngine.runFromRoot choose fetch eh root limit fuel).state.report.bad_urls =
        (AsyncEngine.runFromRoot choose fetch eh root limit fuel).state.report.bad_urls ∧
      EngineBase.exit_code (SequentialEngine.runFromRoot choose fetch eh root limit fuel).state =
        EngineBase.exit_code (AsyncEngine.runFromRoot choose fetch eh root limit fuel).state := by
  intro choose fetch eh root limit fuel
  simp only [SequentialEngine.runFromRoot, AsyncEngine.runFromRoot]
  rw [seq_eq_async choose fetch eh (Domain.from_url root) limit fuel 0
    (EngineBase.initState root)]
  exact ⟨rfl, rfl, rfl⟩

/-- Claim C7: along any sequential run the good and bad sets grow
monotonically, stay disjoint, and a URL is recorded in one of them
exactly when it has been popped into checked, except for the single
URL whose fetch aborted the run, which is in neither. -/
theorem report_partition_invariant :
    ∀ (choose : List String → Option String) (fetch : String → Except Unit (Int × String))
      (eh : String → List String) (domain : Domain) (limit : Option Nat)
      (fuel count : Nat) (s : EngineState),
      ChooseValid choose → DisjointReport s → PartitionReport s →
      s.report.good_urls ⊆
        (SequentialEngine.run choose fetch eh domain limit fuel count s).state.report.good_urls ∧
      s.report.bad_urls ⊆
        (SequentialEngine.run choose fetch eh domain limit fuel count s).state.report.bad_urls ∧
      DisjointReport (SequentialEngine.run choose fetch eh domain limit fuel count s).state ∧
      PartitionModAbort (SequentialEngine.run choose fetch eh domain limit fuel count s) := by
  intro choose fetch eh domain limit fuel count s hv hd hp
  obtain ⟨hg, hb, _⟩ := run_mono choose fetch eh domain limit fuel count s
  obtain ⟨hd2, hp2⟩ := run_partition choose fetch eh domain limit hv fuel count s hd hp
  exact ⟨hg, hb, hd2, hp2⟩

/-- Witness for C7 on the scenario run from the initial state. -/
theorem report_partition_invariant_witness :
    (EngineBase.initState urlA).report.good_urls ⊆
      (SequentialEngine.run List.head? scenarioFetch scenarioHrefs (Domain.from_url urlA)
        none 10 0 (EngineBase.initState urlA)).state.report.good_urls ∧
    (EngineBase.initState urlA).report.bad_urls ⊆
      (SequentialEngine.run List.head? scenarioFetch scenarioHrefs (Domain.from_url urlA)
        none 10 0 (EngineBase.initState urlA)).state.report.bad_urls ∧
    DisjointReport (SequentialEngine.run List.head? scenarioFetch scenarioHrefs
      (Domain.from_url urlA) none 10 0 (EngineBase.initState urlA)).state ∧
    PartitionModAbort (SequentialEngine.run List.head? scenarioFetch scenarioHrefs
      (Domain.from_url urlA) none 10 0 (EngineBase.initState urlA)) :=
  report_partition_invariant List.head? scenarioFetch scenarioHrefs (Domain.from_url urlA)
    none 10 0 (EngineBase.initState urlA) head_choose_valid (init_disj urlA) (init_part urlA)

/-- Claim C8: the normalizer value table on the base page, and the
fragment rule: a fragment is truncated at the first hash only when
that hash occurs at a position greater than zero. -/
theorem normalizer_value_table :
    (startPage.normalize_url "mailto:a@example.com" = none) ∧
    (startPage.normalize_url "#another" = none) ∧
    (startPage.normalize_url "https://www2.example.com/something#else" =
      some "https://www2.example.com/something") ∧
    (startPage.normalize_url "/c" = some "https://example.com/c") ∧
    (startPage.normalize_url "x" = some "https://example.com/start/x") ∧
    (∀ s : String, pyFind s '#' ≤ 0 → drop_fragment s = s) ∧
    (∀ (s : String) (p : Nat), s.toList.findIdx? (fun d => d == '#') = some p → 0 < p →
      drop_fragment s = pyTake s p) := by
  refine ⟨by decide, by decide, by decide, by decide, by decide, ?_, ?_⟩
  · intro s h
    unfold drop_fragment
    rw [if_neg (by omega)]
  · intro s p hidx hp
    have hf : pyFind s '#' = (p : Int) := by
      unfold pyFind
      rw [hidx]
    unfold drop_fragment
    simp only [hf]
    rw [if_pos (by exact_mod_cast hp)]
    simp

/-- Witness for the C8 fragment rule at a concrete string. -/
theorem normalizer_value_table_witness :
    drop_fragment "ab#cd" = pyTake "ab#cd" 2 :=
  normalizer_value_table.2.2.2.2.2.2 "ab#cd" 2 (by decide) (by decide)

/-- Claim C9: on the scenario oracle the unlimited run finishes having
visited exactly A, B and C, never discovering or fetching the
off-domain D (whose fetch would abort the run), with good A and B, bad
C, exit code one, and quiet output exactly the line for C. -/
theorem end_to_end_scenario :
    SequentialEngine.runFromRoot List.head? scenarioFetch scenarioHrefs urlA none 10 =
      .finished { links := { all := [urlA, urlB, urlC], checked := [urlA, urlB, urlC] },
                  report := { bad_urls := [urlC], good_urls := [urlA, urlB] } } ∧
    EngineBase.exit_code (SequentialEngine.runFromRoot List.head? scenarioFetch scenarioHrefs
      urlA none 10).state = 1 ∧
    Report.print_quiet (SequentialEngine.runFromRoot List.head? scenarioFetch scenarioHrefs
      urlA none 10).state.report = [urlC] ∧
    urlD ∉ (SequentialEngine.runFromRoot List.head? scenarioFetch scenarioHrefs
      urlA none 10).state.links.all ∧
    scenarioFetch urlD = .error () := by
  refine ⟨by decide, by decide, by decide, by decide, rfl⟩

/-- Claim C10: with a chooser faithful to set.pop, pop returns the
error exactly on an empty unchecked set, and neither run loop can ever
reach the pop error, because pop is guarded by the emptiness test. -/
theorem pop_error_unreachable :
    ∀ (choose : List String → Option String) (fetch : String → Except Unit (Int × String))
      (eh : String → List String) (root : String) (limit : Option Nat) (fuel : Nat),
      ChooseValid choose → ChooseComplete choose →
      (∀ l : Links, l.unchecked = [] → Links.pop choose l = none) ∧
      (∀ l : Links, l.unchecked ≠ [] → (Links.pop choose l).isSome) ∧
      (∀ s1 : EngineState,
        SequentialEngine.runFromRoot choose fetch eh root limit fuel ≠ .popError s1) ∧
      (∀ s1 : EngineState,
        AsyncEngine.runFromRoot choose fetch eh root limit fuel ≠ .popError s1) := by
  intro choose fetch eh root limit fuel hv hcomp
  refine ⟨?_, ?_, ?_, ?_⟩
  · intro l hl
    unfold Links.pop
    cases hch : choose l.unchecked with
    | none => rfl
    | some u =>
      have := hv _ u hch
      rw [hl] at this
      exact absurd this (by simp)
  · intro l hl
    unfold Links.pop
    have hs := hcomp _ hl
    cases hch : choose l.unchecked with
    | none => rw [hch] at hs; exact absurd hs (by simp)
    | some u => simp
  · intro s1
    simp only [SequentialEngine.runFromRoot]
    exact run_no_popError choose fetch eh (Domain.from_url root) limit hcomp fuel 0
      (EngineBase.initState root) s1
  · intro s1
    simp only [AsyncEngine.runFromRoot]
    rw [← seq_eq_async choose fetch eh (Domain.from_url root) limit fuel 0
      (EngineBase.initState root)]
    exact run_no_popError choose fetch eh (Domain.from_url root) limit hcomp fuel 0
      (EngineBase.initState root) s1

/-- Witness for C10 on the scenario run. -/
theorem pop_error_unreachable_witness :
    SequentialEngine.runFromRoot List.head? scenarioFetch scenarioHrefs urlA none 10 ≠
      RunResult.popError (EngineBase.initState urlA) :=
  (pop_error_unreachable List.head? scenarioFetch scenarioHrefs urlA none 10
    head_choose_valid head_choose_complete).2.2.1 (EngineBase.initState urlA)

end Linkcheck
